import Mathlib

/-!
Shallow embedding of the Test_Bit (kokoro) orchestration engine.

Python floats are modelled as rationals (`ℚ`), timestamps as rational
seconds, database tables as Lean lists in insertion order, and Python
dicts as association lists in insertion order.  Each definition mirrors
one function of the source tree; the source file and symbol are named in
the doc comment.
-/

namespace Kokoro

/-- Clamp a rational to the interval `[0, 10]`
    (the pattern `max(0.0, min(10.0, x))` used by the source). -/
def clamp010 (x : ℚ) : ℚ := max 0 (min 10 x)

/-! ## kokoro/common/utils/time.py -/

/-- `calculate_time_coefficient` from `kokoro/common/utils/time.py`.
    `submit_time` and `execution_start` are timestamps in seconds; the
    `execution_end` argument of the source is unused by the source body,
    so it is kept here as an (unused) argument for fidelity. -/
def calculate_time_coefficient (submit_time execution_start _execution_end : ℚ) : ℚ :=
  let hours_since_start : ℚ := (submit_time - execution_start) / 3600
  if hours_since_start < 6 then
    8/10
  else
    let best_window_start : ℚ := 24
    let best_window_end : ℚ := 48
    if best_window_start ≤ hours_since_start ∧ hours_since_start ≤ best_window_end then
      1
    else if best_window_end < hours_since_start then
      let delay_hours := hours_since_start - best_window_end
      let decay_rate : ℚ := 5/1000
      max (5/10) (1 - delay_hours * decay_rate)
    else
      1

/-! ## kokoro/common/services/scoring.py -/

/-- `ScoringService.calculate_quality_score` with the default
    `k = 3`, `baseline = 3.5`. -/
def calculate_quality_score (score : ℚ) : ℚ :=
  if score < 7/2 then 0 else score ^ 3

/-- `ScoringService.calculate_final_weight`. -/
def calculate_final_weight (quality_score time_coefficient constraint_coefficient : ℚ) : ℚ :=
  if quality_score = 0 then 0
  else quality_score * time_coefficient * constraint_coefficient

/-- `ScoringService.calculate_reward` from `kokoro/common/services/scoring.py`. -/
def scoring_calculate_reward (miner_weight total_weights total_emission : ℚ)
    (task_type : String) : ℚ :=
  if total_weights = 0 then 0
  else
    let task_pool : ℚ :=
      if task_type = "text_lora_creation" then total_emission * (27/100)
      else if task_type = "image_lora_creation" then total_emission * (63/100)
      else total_emission * (45/100)
    (miner_weight / total_weights) * task_pool

/-! ## kokoro/common/services/reputation.py -/

/-- `ReputationService.calculate_reputation` with its default `alpha`. -/
def calculate_reputation (alpha previous_reputation current_score : ℚ) : ℚ :=
  let current_score :=
    if current_score < 0 ∨ 10 < current_score then max 0 (min 10 current_score)
    else current_score
  let reputation := alpha * previous_reputation + (1 - alpha) * current_score
  max 0 (min 10 reputation)

/-! ## kokoro/task_center/services/score_archive.py -/

/-- `ScoreArchive.calculate_ema_score`: the EMA fold over a worker's
    recorded `final_score` values in query (insertion) order.  The source
    seeds the fold with the first score and never clamps. -/
def calculate_ema_score (alpha : ℚ) (scores : List ℚ) : ℚ :=
  match scores with
  | [] => 0
  | s0 :: rest => rest.foldl (fun ema s => alpha * ema + (1 - alpha) * s) s0

/-- The per-step-clamped EMA recurrence as the spec words it
    (`reputation_t = 0.9·reputation_(t-1) + 0.1·score_t`, clamped to
    `[0,10]` after every update), seeded like the source with the first
    score.  Stated for refinement comparison with `calculate_ema_score`. -/
def emaClampedSpec (alpha : ℚ) (scores : List ℚ) : ℚ :=
  match scores with
  | [] => 0
  | s0 :: rest => rest.foldl (fun ema s => clamp010 (alpha * ema + (1 - alpha) * s)) (clamp010 s0)

/-- The per-miner aggregation branch of
    `ScoreArchive.get_all_scores_for_workflow` (lines 113-121): with at
    least 3 scores, sort ascending, drop the first and last
    (`scores_sorted[1:-1]`) and take the mean; otherwise the plain mean
    (0 for an empty list). -/
def aggregateScores (score_list : List ℚ) : ℚ :=
  if 3 ≤ score_list.length then
    let scores_sorted := score_list.insertionSort (· ≤ ·)
    let scores_filtered := (scores_sorted.drop 1).dropLast
    scores_filtered.sum / scores_filtered.length
  else if score_list.length = 0 then 0
  else score_list.sum / score_list.length

/-! ## kokoro/common/services/reward.py -/

/-- The score-derived weights branch of `RewardService.calculate_rewards`
    (used when no explicit weight dict is passed). -/
def scoreWeights (miner_scores : List (String × ℚ)) : List (String × ℚ) :=
  miner_scores.map fun p => (p.1, if p.2 < 7/2 then 0 else calculate_quality_score p.2)

/-- `RewardService.calculate_rewards` from `kokoro/common/services/reward.py`.
    Python dicts are modelled as association lists in insertion order; the
    Python truthiness test `if miner_weights:` is `none`-or-empty here. -/
def calculate_rewards (miner_scores : List (String × ℚ))
    (miner_weights : Option (List (String × ℚ)))
    (task_type : String) (total_emission : ℚ) : List (String × ℚ) :=
  let miner_pool := total_emission * (90/100)
  let task_pool :=
    if task_type = "text_lora_creation" then total_emission * (27/100)
    else if task_type = "image_lora_creation" then total_emission * (63/100)
    else miner_pool * (50/100)
  let weights :=
    match miner_weights with
    | some ws => if ws.isEmpty then scoreWeights miner_scores else ws
    | none => scoreWeights miner_scores
  let total_weight := (weights.map Prod.snd).sum
  if total_weight = 0 then
    miner_scores.map fun p => (p.1, (0 : ℚ))
  else
    weights.map fun p => (p.1, if p.2 = 0 then (0 : ℚ) else (p.2 / total_weight) * task_pool)

/-! ## kokoro/task_center/services/miner_cache.py -/

/-- One cached worker record (`MinerCache._cache` entry).  Timestamps are
    rational seconds; `last_heartbeat` is `none` when the entry has no
    heartbeat recorded. -/
structure MinerRecord where
  hotkey : String
  stake : ℚ
  reputation : ℚ
  is_active : Bool
  is_online : Bool
  last_heartbeat : Option ℚ
deriving DecidableEq, Repr

/-- The per-record online test shared by `MinerCache.get_online_miners`
    and `MinerCache.is_miner_online`: skip when `is_online` is unset, and
    when a heartbeat exists skip when `now - last_heartbeat > timeout`;
    a record without a heartbeat passes the check. -/
def heartbeatOk (now timeout : ℚ) (m : MinerRecord) : Bool :=
  m.is_online &&
    (match m.last_heartbeat with
     | some hb => !decide (timeout < now - hb)
     | none => true)

/-- `MinerCache.get_online_miners` over the cache contents in insertion
    order. -/
def get_online_miners (cache : List MinerRecord) (now timeout : ℚ) : List MinerRecord :=
  cache.filter (heartbeatOk now timeout)

/-- `MinerCache.is_miner_online`. -/
def is_miner_online (cache : List MinerRecord) (now timeout : ℚ) (hotkey : String) : Bool :=
  match cache.find? (fun m => m.hotkey == hotkey) with
  | none => false
  | some m =>
    if !m.is_online then false
    else
      match m.last_heartbeat with
      | some hb => !decide (timeout < now - hb)
      | none => true

/-! ## kokoro/task_center/services/task_lifecycle_manager.py -/

/-- `TaskStatus` values of the lifecycle state machine
    (`kokoro/common/models/task.py` is absent from the tree; these are the
    variant names used by the lifecycle manager and the publish handler,
    with `pending` the draft/not-yet-published entry state). -/
inductive TaskStatus where
  | pending
  | announcement
  | execution
  | review
  | reward
  | ended
deriving DecidableEq, Repr

/-- Position of a status in the phase order, for monotonicity statements. -/
def statusRank : TaskStatus → ℕ
  | .pending => 0
  | .announcement => 1
  | .execution => 2
  | .review => 3
  | .reward => 4
  | .ended => 5

/-- A task row, restricted to the fields the lifecycle manager and the
    reward distributor read. -/
structure LifeTask where
  workflow_id : String
  status : TaskStatus
  workflow_type : String
  execution_start : Option ℚ
  review_start : Option ℚ
  reward_start : Option ℚ
  workflow_end : Option ℚ
deriving DecidableEq, Repr

/-- The per-task body of `TaskLifecycleManager._update_task_statuses`:
    tasks whose status is outside the four active phases are not selected
    by the query and stay unchanged; an active task advances one state
    when its next boundary exists and `now` has reached it. -/
def update_task_status (now : ℚ) (t : LifeTask) : LifeTask :=
  match t.status with
  | .announcement =>
    match t.execution_start with
    | some b => if b ≤ now then { t with status := .execution } else t
    | none => t
  | .execution =>
    match t.review_start with
    | some b => if b ≤ now then { t with status := .review } else t
    | none => t
  | .review =>
    match t.reward_start with
    | some b => if b ≤ now then { t with status := .reward } else t
    | none => t
  | .reward =>
    match t.workflow_end with
    | some b => if b ≤ now then { t with status := .ended } else t
    | none => t
  | _ => t

/-- A sequence of lifecycle ticks at the given times, in order. -/
def run_lifecycle (times : List ℚ) (t : LifeTask) : LifeTask :=
  times.foldl (fun a n => update_task_status n a) t

/-- The boundary timestamp that gates entry into a given status. -/
def boundaryFor (t : LifeTask) : TaskStatus → Option ℚ
  | .execution => t.execution_start
  | .review => t.review_start
  | .reward => t.reward_start
  | .ended => t.workflow_end
  | _ => none

/-- `TaskLifecycleManager.is_task_in_execution_or_review` over a task
    table. -/
def is_task_in_execution_or_review (tasks : List LifeTask) (wf : String) : Bool :=
  match tasks.find? (fun t => t.workflow_id == wf) with
  | none => false
  | some t => t.status == .execution || t.status == .review

/-- `TaskLifecycleManager.is_task_ended` over a task table. -/
def is_task_ended (tasks : List LifeTask) (wf : String) : Bool :=
  match tasks.find? (fun t => t.workflow_id == wf) with
  | none => false
  | some t => t.status == .ended

/-! ## Database rows

`kokoro/common/models/` is absent from the tree; each structure below
carries exactly the columns that the services in `src/` read or write. -/

/-- A `Score` row: append-only, one per completed audit clone. -/
structure ScoreRow where
  workflow_id : String
  miner_hotkey : String
  validator_hotkey : String
  final_score : ℚ
deriving DecidableEq, Repr

/-- An `AuditTask` row (an AuditUnit template when `validator_hotkey` is
    `none`, a per-auditor clone otherwise). -/
structure AuditTaskRow where
  audit_task_id : String
  original_task_id : String
  miner_hotkey : String
  validator_hotkey : Option String
  is_completed : Bool
  created_at : ℚ
  completed_at : Option ℚ
deriving DecidableEq, Repr

/-- A `MinerSubmission` row, restricted to the fields the distributor
    reads. -/
structure SubmissionRow where
  workflow_id : String
  miner_hotkey : String
  created_at : ℚ
deriving DecidableEq, Repr

/-- A `RewardDistribution` row, restricted to the fields the distributor
    writes and reads back. -/
structure RewardRow where
  workflow_id : String
  miner_hotkey : String
  reward_amount : ℚ
  weight : ℚ
  score : ℚ
  distribution_round : String
deriving DecidableEq, Repr

/-- The persistent state visible to the task-center services; every table
    is a list in insertion order. -/
structure Db where
  tasks : List LifeTask
  audit_tasks : List AuditTaskRow
  scores : List ScoreRow
  submissions : List SubmissionRow
  ledger : List RewardRow
deriving DecidableEq, Repr

/-! ## kokoro/task_center/services/score_archive.py (grouping) -/

/-- The miner keys of a score set in first-seen order (the Python dict
    grouping of `get_all_scores_for_workflow` preserves insertion order). -/
def minersOf (rows : List ScoreRow) : List String :=
  rows.foldl (fun acc s => if s.miner_hotkey ∈ acc then acc else acc ++ [s.miner_hotkey]) []

/-- All `final_score` values of one miner within a score set, in
    insertion order. -/
def scoresForMiner (rows : List ScoreRow) (m : String) : List ℚ :=
  (rows.filter (fun s => s.miner_hotkey == m)).map (·.final_score)

/-- `ScoreArchive.get_all_scores_for_workflow`, projected to the
    `(miner_hotkey, average_score)` pairs that the reward distributor
    consumes (the result rows also carry the raw score list, an EMA and a
    validator count, none of which the distributor reads). -/
def get_all_scores_for_workflow (scores : List ScoreRow) (wf : String) : List (String × ℚ) :=
  let ws := scores.filter (fun s => s.workflow_id == wf)
  (minersOf ws).map fun m => (m, aggregateScores (scoresForMiner ws m))

/-! ## kokoro/task_center/services/continuous_reward_distributor.py -/

/-- The distribution round identifier: `distribution_round = f"audit_\x7baudit_task_id\x7d"`. -/
def distributionRound (audit_task_id : String) : String := "audit_" ++ audit_task_id

/-- Modelled from the spec: the persistence model
    `kokoro/common/models/reward_distribution.py` is not in the source
    tree.  Per the data-model section, RewardRecord is append-only and
    keyed by `(task_id, worker_hotkey, distribution_round)`, and per the
    concurrency section a duplicate round-id insert is rejected/ignored
    by the uniqueness invariant.  So an insert whose key is already
    present leaves the ledger unchanged. -/
def ledgerInsert (led : List RewardRow) (row : RewardRow) : List RewardRow :=
  if led.any (fun r =>
      r.workflow_id == row.workflow_id && r.miner_hotkey == row.miner_hotkey &&
      r.distribution_round == row.distribution_round) then
    led
  else led ++ [row]

/-- Key-membership in the ledger: some row with this
    `(workflow, miner, round)` key is recorded. -/
def keyMem (led : List RewardRow) (row : RewardRow) : Prop :=
  ∃ r ∈ led, r.workflow_id = row.workflow_id ∧ r.miner_hotkey = row.miner_hotkey ∧
    r.distribution_round = row.distribution_round

/-- Lookup with default 0, mirroring Python `dict.get(key, 0.0)`. -/
def lookupD (l : List (String × ℚ)) (k : String) : ℚ :=
  match l.find? (fun p => p.1 == k) with
  | some p => p.2
  | none => 0

/-- The latest `MinerSubmission` for a `(workflow, miner)` pair
    (`order_by(created_at.desc()).first()`; Python keeps the first of
    equal keys, so ties resolve to the earlier row). -/
def latestSubmission (subs : List SubmissionRow) (wf m : String) : Option SubmissionRow :=
  (subs.filter (fun s => s.workflow_id == wf && s.miner_hotkey == m)).foldl
    (fun acc s =>
      match acc with
      | none => some s
      | some a => if a.created_at < s.created_at then some s else some a)
    none

/-- The eligible-miner pass of
    `ContinuousRewardDistributor.distribute_rewards_for_completed_audit`:
    miners whose aggregated average is below the 3.5 baseline are
    skipped. -/
def eligibleMiners (scores : List ScoreRow) (wf : String) : List (String × ℚ) :=
  (get_all_scores_for_workflow scores wf).filter (fun p => !decide (p.2 < 7/2))

/-- The final weight computed per eligible miner by the distributor:
    cubic quality weight, a time coefficient when a submission and both
    window boundaries exist (1.0 otherwise), and a constant constraint
    coefficient of 1.0. -/
def minerWeight (task : LifeTask) (subs : List SubmissionRow) (wf : String)
    (p : String × ℚ) : ℚ :=
  let quality_score := calculate_quality_score p.2
  let time_coefficient :=
    match latestSubmission subs wf p.1, task.execution_start, task.review_start with
    | some sub, some es, some rs => calculate_time_coefficient sub.created_at es rs
    | _, _, _ => 1
  calculate_final_weight quality_score time_coefficient 1

/-- The ledger rows that one invocation of
    `distribute_rewards_for_completed_audit` attempts to insert:
    empty on each of the early returns (task not in execution/review,
    task ended, audit row missing, task row missing, no eligible miner),
    otherwise one row per positive reward amount. -/
def distributionRows (tasks : List LifeTask) (audit_tasks : List AuditTaskRow)
    (scores : List ScoreRow) (subs : List SubmissionRow)
    (audit_task_id wf : String) (total_emission : ℚ) : List RewardRow :=
  if !is_task_in_execution_or_review tasks wf then []
  else if is_task_ended tasks wf then []
  else
    match audit_tasks.find? (fun a => a.audit_task_id == audit_task_id) with
    | none => []
    | some _ =>
      match tasks.find? (fun t => t.workflow_id == wf) with
      | none => []
      | some task =>
        let eligible_miners := eligibleMiners scores wf
        if eligible_miners.isEmpty then []
        else
          let miner_weights := eligible_miners.map fun p => (p.1, minerWeight task subs wf p)
          let rewards := calculate_rewards eligible_miners (some miner_weights)
            task.workflow_type total_emission
          (rewards.filter (fun p => decide (0 < p.2))).map fun p =>
            { workflow_id := wf
              miner_hotkey := p.1
              reward_amount := p.2
              weight := lookupD miner_weights p.1
              score := lookupD eligible_miners p.1
              distribution_round := distributionRound audit_task_id }

/-- `ContinuousRewardDistributor.distribute_rewards_for_completed_audit`:
    computes the reward rows for this audit's distribution round and
    inserts them into the ledger; every other table is read-only here.
    `total_emission` is the chain oracle's `get_emission()` answer. -/
def distribute_rewards_for_completed_audit (db : Db) (audit_task_id wf : String)
    (total_emission : ℚ) : Db :=
  { db with
      ledger := (distributionRows db.tasks db.audit_tasks db.scores db.submissions
        audit_task_id wf total_emission).foldl ledgerInsert db.ledger }

/-! ## kokoro/task_center/services/score_archive.py (submit_score) -/

/-- The completed audit clones recorded for a `(task, worker)` pair. -/
def completedAudits (audit_tasks : List AuditTaskRow) (wf m : String) : List AuditTaskRow :=
  (audit_tasks.filter (fun t => t.original_task_id == wf && t.miner_hotkey == m)).filter
    (fun t => t.is_completed)

/-- Python `max(list, key=f)`: the first element attaining the maximal
    key (later elements replace only on a strictly greater key). -/
def pyMaxBy (f : AuditTaskRow → ℚ) : List AuditTaskRow → Option AuditTaskRow
  | [] => none
  | a :: rest => some (rest.foldl (fun acc x => if f acc < f x then x else acc) a)

/-- `ScoreArchive.submit_score`: append the score row, then, when at
    least 3 completed audit clones exist for the `(task, worker)` pair,
    trigger reward distribution for the latest completed clone
    (`key=lambda x: x.completed_at or x.created_at`). -/
def submit_score (db : Db) (sd : ScoreRow) (total_emission : ℚ) : Db :=
  let db1 := { db with scores := db.scores ++ [sd] }
  let completed_audits := completedAudits db1.audit_tasks sd.workflow_id sd.miner_hotkey
  if 3 ≤ completed_audits.length then
    match pyMaxBy (fun t => t.completed_at.getD t.created_at) completed_audits with
    | some latest_audit =>
      distribute_rewards_for_completed_audit db1 latest_audit.audit_task_id
        sd.workflow_id total_emission
    | none => db1
  else db1

/-! ## kokoro/miner/services/gpu_manager.py and queue_manager.py -/

/-- Queue lane of a job (`TaskPriority`). -/
inductive TaskPriority where
  | high
  | medium
  | low
deriving DecidableEq, Repr

/-- A queued job, restricted to the fields the scheduler dispatches on. -/
structure QueuedTask where
  task_id : String
  priority : TaskPriority
  task_type : String
deriving DecidableEq, Repr

/-- The training-class test of `QueueManager._process_queue`
    (`task.task_type in ["text_lora_training", "image_lora_training"]`). -/
def isTrainingType (t : String) : Bool :=
  t == "text_lora_training" || t == "image_lora_training"

/-- Scheduler state: accelerator slots as availability flags indexed by
    slot id (`GPUManager.gpus`), the running-task table keyed by task with
    its allocated slot, and the three FIFO lanes. -/
structure SchedState where
  gpus : List Bool
  running : List (QueuedTask × ℕ)
  highQ : List QueuedTask
  medQ : List QueuedTask
  lowQ : List QueuedTask
deriving DecidableEq, Repr

/-- `GPUManager.allocate_gpu`: first-available slot; marks it occupied
    and returns its id. -/
def allocate_gpu (gpus : List Bool) : Option (ℕ × List Bool) :=
  match gpus.findIdx? (fun b => b) with
  | some i => some (i, gpus.set i false)
  | none => none

/-- `GPUManager.get_available_gpu_count`. -/
def available_gpu_count (gpus : List Bool) : ℕ := (gpus.filter (fun b => b)).length

/-- Number of running training-class jobs
    (the `training_count` query in `_process_queue`). -/
def trainingCount (running : List (QueuedTask × ℕ)) : ℕ :=
  (running.filter (fun p => isTrainingType p.1.task_type)).length

/-- `QueueManager._put_back`: requeue at the tail of the job's own lane. -/
def put_back (s : SchedState) (t : QueuedTask) : SchedState :=
  match t.priority with
  | .high => { s with highQ := s.highQ ++ [t] }
  | .medium => { s with medQ := s.medQ ++ [t] }
  | .low => { s with lowQ := s.lowQ ++ [t] }

/-- The highest-priority non-empty lane's head (the high/medium/low
    dequeue chain of `_process_queue`). -/
def dequeue (s : SchedState) : Option (QueuedTask × SchedState) :=
  match s.highQ with
  | t :: rest => some (t, { s with highQ := rest })
  | [] =>
    match s.medQ with
    | t :: rest => some (t, { s with medQ := rest })
    | [] =>
      match s.lowQ with
      | t :: rest => some (t, { s with lowQ := rest })
      | [] => none

/-- One scheduling tick, `QueueManager._process_queue`: skip when no slot
    is free; otherwise dequeue one job; requeue it when it is a
    training-class job and the training cap is met, or when no slot can
    be allocated; otherwise allocate a slot and start the job.  The
    running-table registration performed at the head of `_execute_task`
    is folded into the admission step: the component loops are
    cooperative, and `_execute_task` registers the task before its first
    suspension point, hence before the next tick runs. -/
def process_queue (max_training_jobs : ℕ) (s : SchedState) : SchedState :=
  if available_gpu_count s.gpus = 0 then s
  else
    match dequeue s with
    | none => s
    | some (task, s1) =>
      if isTrainingType task.task_type && decide (max_training_jobs ≤ trainingCount s1.running) then
        put_back s1 task
      else
        match allocate_gpu s1.gpus with
        | none => put_back s1 task
        | some (gpu_id, gpus1) =>
          { s1 with gpus := gpus1, running := s1.running ++ [(task, gpu_id)] }

/-- Remove the first running entry with this task id, returning its slot
    (`running_tasks.pop(task.task_id, None)`). -/
def removeFirstRun : List (QueuedTask × ℕ) → String → List (QueuedTask × ℕ) × Option ℕ
  | [], _ => ([], none)
  | p :: rest, tid =>
    if p.1.task_id == tid then (rest, some p.2)
    else
      let r := removeFirstRun rest tid
      (p :: r.1, r.2)

/-- Termination of a running job: the `finally` block of
    `QueueManager._execute_task` releases the slot
    (`GPUManager.release_gpu`) and drops the task from the running
    table. -/
def complete_task (s : SchedState) (tid : String) : SchedState :=
  match removeFirstRun s.running tid with
  | (running1, some gpu_id) => { s with running := running1, gpus := s.gpus.set gpu_id true }
  | (_, none) => s

/-- An observable scheduler event: one scheduling tick, or the
    termination (success or failure) of a running job. -/
inductive SchedEvent where
  | tick
  | complete (tid : String)
deriving DecidableEq, Repr

/-- Event step function of the scheduler. -/
def sched_step (max_training_jobs : ℕ) (s : SchedState) : SchedEvent → SchedState
  | .tick => process_queue max_training_jobs s
  | .complete tid => complete_task s tid

/-- Run a sequence of scheduler events. -/
def sched_run (max_training_jobs : ℕ) (events : List SchedEvent) (s : SchedState) : SchedState :=
  events.foldl (sched_step max_training_jobs) s

/-- The scheduler's start state: `gpu_count` free slots, nothing running,
    and any initial lane contents. -/
def initSched (gpu_count : ℕ) (hq mq lq : List QueuedTask) : SchedState :=
  { gpus := List.replicate gpu_count true, running := [], highQ := hq, medQ := mq, lowQ := lq }

/-! ## kokoro/task_center/services/audit_task_creator.py -/

/-- A `Validator` table row, restricted to the fields the assignment
    engine reads. -/
structure ValidatorRow where
  hotkey : String
  stake : ℚ
  reputation : ℚ
deriving DecidableEq, Repr

/-- One entry of the chain oracle's `get_all_miners()` answer. -/
structure NodeData where
  hotkey : String
  stake : ℚ
  is_active : Bool
deriving DecidableEq, Repr

/-- A candidate auditor as built by `auto_assign_audit_tasks`. -/
structure CandInfo where
  hotkey : String
  stake : ℚ
  reputation : ℚ
  pending_count : ℕ
  priority_score : ℚ
deriving DecidableEq, Repr

/-- The pending-audit load of a validator: assigned, not yet completed
    clones. -/
def pendingCount (audits : List AuditTaskRow) (v : String) : ℕ :=
  (audits.filter (fun a => a.validator_hotkey == some v && !a.is_completed)).length

/-- The eligible-validator pool of `auto_assign_audit_tasks`: active
    nodes, with the reputation of their `Validator` row (0 for a node not
    yet in the table — the code creates the missing row with zero
    reputation), their current pending count, and
    `priority_score = reputation * 0.7 - pending_count * 0.3`. -/
def eligible_validators (audits : List AuditTaskRow) (validators : List ValidatorRow)
    (nodes : List NodeData) : List CandInfo :=
  (nodes.filter (·.is_active)).map fun nd =>
    let reputation :=
      match validators.find? (fun v => v.hotkey == nd.hotkey) with
      | some v => v.reputation
      | none => 0
    let pending_count := pendingCount audits nd.hotkey
    { hotkey := nd.hotkey
      stake := nd.stake
      reputation := reputation
      pending_count := pending_count
      priority_score := reputation * (7/10) - (pending_count : ℚ) * (3/10) }

/-- The candidate order produced by
    `sorted(eligible_validators, key=lambda x: (x["priority_score"],
    -validator_assignment_count[x["hotkey"]], x["pending_count"]),
    reverse=True)`: `a` precedes `b` when `a`'s key tuple is
    lexicographically at least `b`'s.  Stability of Python's sort matches
    insertion sort under this reflexive total relation. -/
def candGE (cnt : String → ℕ) (a b : CandInfo) : Prop :=
  b.priority_score < a.priority_score ∨
    (a.priority_score = b.priority_score ∧
      (cnt a.hotkey < cnt b.hotkey ∨
        (cnt a.hotkey = cnt b.hotkey ∧ b.pending_count ≤ a.pending_count)))

instance (cnt : String → ℕ) : DecidableRel (candGE cnt) := fun a b => by
  unfold candGE; infer_instance

instance (cnt : String → ℕ) : IsTotal CandInfo (candGE cnt) := by
  constructor
  intro a b
  unfold candGE
  rcases lt_trichotomy a.priority_score b.priority_score with h | h | h
  · exact Or.inr (Or.inl h)
  · rcases lt_trichotomy (cnt a.hotkey) (cnt b.hotkey) with h2 | h2 | h2
    · exact Or.inl (Or.inr ⟨h, Or.inl h2⟩)
    · rcases le_total b.pending_count a.pending_count with h3 | h3
      · exact Or.inl (Or.inr ⟨h, Or.inr ⟨h2, h3⟩⟩)
      · exact Or.inr (Or.inr ⟨h.symm, Or.inr ⟨h2.symm, h3⟩⟩)
    · exact Or.inr (Or.inr ⟨h.symm, Or.inl h2⟩)
  · exact Or.inl (Or.inl h)

instance (cnt : String → ℕ) : IsTrans CandInfo (candGE cnt) := by
  constructor
  intro a b c hab hbc
  unfold candGE at hab hbc ⊢
  rcases hab with h1 | ⟨e1, h1⟩ <;> rcases hbc with h2 | ⟨e2, h2⟩
  · exact Or.inl (lt_trans h2 h1)
  · exact Or.inl (by linarith)
  · exact Or.inl (by linarith)
  · refine Or.inr ⟨e1.trans e2, ?_⟩
    rcases h1 with hc1 | ⟨ec1, hp1⟩ <;> rcases h2 with hc2 | ⟨ec2, hp2⟩
    · exact Or.inl (by omega)
    · exact Or.inl (by omega)
    · exact Or.inl (by omega)
    · exact Or.inr ⟨by omega, by omega⟩

/-- The per-unit candidate ranking of `auto_assign_audit_tasks`. -/
def rankCandidates (cnt : String → ℕ) (l : List CandInfo) : List CandInfo :=
  l.insertionSort (candGE cnt)

/-- The candidate order as the claim words it: priority score descending,
    then this-round assignment count ascending, then pending count
    ascending.  Stated for comparison with `candGE`. -/
def claimCandGE (cnt : String → ℕ) (a b : CandInfo) : Prop :=
  b.priority_score < a.priority_score ∨
    (a.priority_score = b.priority_score ∧
      (cnt a.hotkey < cnt b.hotkey ∨
        (cnt a.hotkey = cnt b.hotkey ∧ a.pending_count ≤ b.pending_count)))

instance (cnt : String → ℕ) : DecidableRel (claimCandGE cnt) := fun a b => by
  unfold claimCandGE; infer_instance

/-- The ranking the claim describes, for comparison with
    `rankCandidates`. -/
def rankCandidatesClaim (cnt : String → ℕ) (l : List CandInfo) : List CandInfo :=
  l.insertionSort (claimCandGE cnt)

/-- `AuditTaskCreator.assign_audit_task_to_validator` restricted to the
    audit table: look up the template, return unchanged (`None`) when a
    clone for this `(task, worker, auditor)` triple already exists,
    otherwise append the clone.  The random uuid suffix of the clone id
    is modelled by a deterministic suffix; no claim reads the id.  The
    `Bool` reports whether a clone was created. -/
def assign_audit_task_to_validator (audits : List AuditTaskRow)
    (audit_task_id validator_key : String) (now : ℚ) : List AuditTaskRow × Bool :=
  match audits.find? (fun a => a.audit_task_id == audit_task_id) with
  | none => (audits, false)
  | some base =>
    if audits.any (fun a =>
        a.original_task_id == base.original_task_id &&
        a.miner_hotkey == base.miner_hotkey &&
        a.validator_hotkey == some validator_key) then
      (audits, false)
    else
      (audits ++ [{ audit_task_id := audit_task_id ++ "_" ++ validator_key
                    original_task_id := base.original_task_id
                    miner_hotkey := base.miner_hotkey
                    validator_hotkey := some validator_key
                    is_completed := false
                    created_at := now
                    completed_at := none }], true)

/-- This-round assignment counts (`validator_assignment_count`). -/
def countOf (counts : List (String × ℕ)) (h : String) : ℕ :=
  match counts.find? (fun p => p.1 == h) with
  | some p => p.2
  | none => 0

/-- Increment one validator's this-round assignment count. -/
def bumpCount (counts : List (String × ℕ)) (h : String) : List (String × ℕ) :=
  counts.map fun p => if p.1 == h then (p.1, p.2 + 1) else p

/-- Clones already assigned for a unit's `(task, worker)` pair
    (the `assigned_count` query). -/
def assignedCount (audits : List AuditTaskRow) (wf m : String) : ℕ :=
  (audits.filter (fun a =>
    a.original_task_id == wf && a.miner_hotkey == m && a.validator_hotkey != none)).length

/-- The quorum size (`validators_per_task = 3`). -/
def validators_per_task : ℕ := 3

/-- `AuditTaskCreator.auto_assign_audit_tasks`: for every unassigned
    template of the workflow, re-rank the pre-sorted eligible pool by
    `candGE` under the running per-validator assignment counts, take the
    top `needed` candidates and attempt each assignment, bumping the
    count only when a clone was actually created.  `now` stamps the
    clones' creation time. -/
def auto_assign_audit_tasks (audits : List AuditTaskRow) (validators : List ValidatorRow)
    (nodes : List NodeData) (wf : String) (now : ℚ) : List AuditTaskRow :=
  let units := audits.filter (fun a => a.original_task_id == wf && a.validator_hotkey == none)
  if units.isEmpty then audits
  else
    let elig := eligible_validators audits validators nodes
    if elig.isEmpty then audits
    else
      let sorted1 := elig.insertionSort (fun a b => b.priority_score ≤ a.priority_score)
      let counts0 := elig.map fun c => (c.hotkey, (0 : ℕ))
      (units.foldl
        (fun (st : List AuditTaskRow × List (String × ℕ)) unit =>
          let assigned := assignedCount st.1 unit.original_task_id unit.miner_hotkey
          if validators_per_task ≤ assigned then st
          else
            let needed := validators_per_task - assigned
            let candidates := rankCandidates (countOf st.2) sorted1
            let selected := candidates.take needed
            selected.foldl
              (fun (st2 : List AuditTaskRow × List (String × ℕ)) v =>
                let r := assign_audit_task_to_validator st2.1 unit.audit_task_id v.hotkey now
                if r.2 then (r.1, bumpCount st2.2 v.hotkey) else (r.1, st2.2))
              st)
        (audits, counts0)).1

/-! ## Verification-level predicates and concrete scenario inputs -/

/-- Scheduler slot-ownership invariant: running jobs hold pairwise
    distinct, valid, occupied slots. -/
def GpuInv (s : SchedState) : Prop :=
  (s.running.map Prod.snd).Nodup ∧
    ∀ p ∈ s.running, p.2 < s.gpus.length ∧ s.gpus[p.2]? = some false

/-- Scenario task for the quorum-gating analysis: a published task in its
    execution phase. -/
def c4Task : LifeTask :=
  { workflow_id := "w", status := .execution, workflow_type := "text_lora_creation"
    execution_start := none, review_start := none, reward_start := none
    workflow_end := none }

/-- Scenario audit clone for worker `A` of task `w`, already completed at
    time `ts`. -/
def c4Clone (id v : String) (ts : ℚ) : AuditTaskRow :=
  { audit_task_id := id, original_task_id := "w", miner_hotkey := "A"
    validator_hotkey := some v, is_completed := true
    created_at := 0, completed_at := some ts }

/-- Scenario database: the task, its three completed audit clones, no
    scores yet. -/
def c4Db : Db :=
  { tasks := [c4Task]
    audit_tasks := [c4Clone "a1" "v1" 1, c4Clone "a2" "v2" 2, c4Clone "a3" "v3" 3]
    scores := [], submissions := [], ledger := [] }

/-- Scenario score row from validator `v` for worker `A` of task `w`. -/
def c4Score (v : String) (x : ℚ) : ScoreRow :=
  { workflow_id := "w", miner_hotkey := "A", validator_hotkey := v, final_score := x }

/-- The databases after each scenario score insertion (emission 1000):
    every insertion happens with the completed-clone count for
    `("w", "A")` already at the quorum of 3. -/
def c4D1 : Db := submit_score c4Db (c4Score "v1" 2) 1000

/-- Database after the second scenario insertion. -/
def c4D2 : Db := submit_score c4D1 (c4Score "v2" 3) 1000

/-- Database after the third scenario insertion. -/
def c4D3 : Db := submit_score c4D2 (c4Score "v3" 3) 1000

/-- Database after the fourth scenario insertion. -/
def c4D4 : Db := submit_score c4D3 (c4Score "v1" 10) 1000

/-- Database after the fifth scenario insertion. -/
def c4D5 : Db := submit_score c4D4 (c4Score "v2" 10) 1000

/-- Registry-scenario record: flagged online, no heartbeat ever
    recorded. -/
def c9Rec : MinerRecord :=
  { hotkey := "m1", stake := 0, reputation := 0, is_active := true
    is_online := true, last_heartbeat := none }

/-- Registry-scenario record with a fresh heartbeat. -/
def c9Rec2 : MinerRecord :=
  { hotkey := "m2", stake := 0, reputation := 0, is_active := true
    is_online := true, last_heartbeat := some 950 }

/-- Ranking-scenario candidate with reputation 3 and no pending load:
    priority score `3 * 0.7 - 0 * 0.3 = 2.1`. -/
def c10X : CandInfo :=
  { hotkey := "X", stake := 0, reputation := 3, pending_count := 0, priority_score := 21/10 }

/-- Ranking-scenario candidate with reputation 6 and 7 pending audits:
    priority score `6 * 0.7 - 7 * 0.3 = 2.1`. -/
def c10Y : CandInfo :=
  { hotkey := "Y", stake := 0, reputation := 6, pending_count := 7, priority_score := 21/10 }

/-- A pending (assigned, uncompleted) audit clone held by validator `Y`. -/
def c10PendingClone (i : String) : AuditTaskRow :=
  { audit_task_id := "p" ++ i, original_task_id := "wp", miner_hotkey := "M"
    validator_hotkey := some "Y", is_completed := false, created_at := 0, completed_at := none }

/-- Seven pending clones for validator `Y`. -/
def c10Audits : List AuditTaskRow :=
  [c10PendingClone "1", c10PendingClone "2", c10PendingClone "3", c10PendingClone "4",
   c10PendingClone "5", c10PendingClone "6", c10PendingClone "7"]

/-- Validator table of the ranking scenario. -/
def c10Validators : List ValidatorRow :=
  [{ hotkey := "X", stake := 0, reputation := 3 }, { hotkey := "Y", stake := 0, reputation := 6 }]

/-- Active-node list of the ranking scenario. -/
def c10Nodes : List NodeData :=
  [{ hotkey := "X", stake := 0, is_active := true }, { hotkey := "Y", stake := 0, is_active := true }]

/-! # Theorems -/

/-- C7: the time coefficient is 0.8 below 6 hours after execution start,
    1.0 inside the 24h-48h best window, and beyond 48h decays from 1.0 by
    0.005 per hour past the window end, floored at 0.5. -/
theorem C7_time_coefficient (submit_time execution_start execution_end : ℚ) :
    ((submit_time - execution_start) / 3600 < 6 →
      calculate_time_coefficient submit_time execution_start execution_end = 8/10) ∧
    (24 ≤ (submit_time - execution_start) / 3600 →
      (submit_time - execution_start) / 3600 ≤ 48 →
      calculate_time_coefficient submit_time execution_start execution_end = 1) ∧
    (48 < (submit_time - execution_start) / 3600 →
      calculate_time_coefficient submit_time execution_start execution_end
        = max (5/10) (1 - ((submit_time - execution_start) / 3600 - 48) * (5/1000))) := by
  unfold calculate_time_coefficient
  dsimp only
  refine ⟨fun h1 => ?_, fun h1 h2 => ?_, fun h1 => ?_⟩
  · rw [if_pos h1]
  · rw [if_neg (by linarith), if_pos ⟨h1, h2⟩]
  · rw [if_neg (by linarith), if_neg (by rintro ⟨-, h⟩; linarith), if_pos h1]

/-- C7 witness: a submission 30 hours into the window gets coefficient
    1. -/
theorem C7_witness : calculate_time_coefficient 108000 0 0 = 1 :=
  (C7_time_coefficient 108000 0 0).2.1 (by norm_num) (by norm_num)

/-- C8 counterexample: the score-archive EMA never clamps; a single
    recorded score of 20 yields reputation 20, outside `[0, 10]`,
    while the per-step-clamped recurrence of the claim yields 10. -/
theorem C8_counterexample :
    calculate_ema_score (9/10) [20] = 20 ∧
    ¬ calculate_ema_score (9/10) [20] ≤ 10 ∧
    emaClampedSpec (9/10) [20] = 10 := by
  refine ⟨rfl, by norm_num [calculate_ema_score], ?_⟩
  norm_num [emaClampedSpec, clamp010]

/-- The unclamped EMA fold used by `calculate_ema_score` agrees with the
    per-step-clamped fold and stays in `[0, 10]` whenever the seed and
    every score lie in `[0, 10]`. -/
theorem ema_fold_in_range (scores : List ℚ) :
    ∀ e : ℚ, 0 ≤ e → e ≤ 10 → (∀ s ∈ scores, 0 ≤ s ∧ s ≤ 10) →
      scores.foldl (fun ema s => (9:ℚ)/10 * ema + (1 - 9/10) * s) e
          = scores.foldl (fun ema s => clamp010 ((9:ℚ)/10 * ema + (1 - 9/10) * s)) e ∧
        0 ≤ scores.foldl (fun ema s => (9:ℚ)/10 * ema + (1 - 9/10) * s) e ∧
        scores.foldl (fun ema s => (9:ℚ)/10 * ema + (1 - 9/10) * s) e ≤ 10 := by
  induction scores with
  | nil => intro e he0 he10 _; exact ⟨rfl, he0, he10⟩
  | cons s rest ih =>
    intro e he0 he10 hin
    obtain ⟨hs0, hs10⟩ := hin s (List.mem_cons_self s rest)
    have hstep0 : (0:ℚ) ≤ 9/10 * e + (1 - 9/10) * s := by linarith
    have hstep10 : (9:ℚ)/10 * e + (1 - 9/10) * s ≤ 10 := by linarith
    have hclamp : clamp010 ((9:ℚ)/10 * e + (1 - 9/10) * s)
        = (9:ℚ)/10 * e + (1 - 9/10) * s := by
      unfold clamp010
      rw [min_eq_right hstep10, max_eq_right hstep0]
    have hrest := ih ((9:ℚ)/10 * e + (1 - 9/10) * s) hstep0 hstep10
      (fun x hx => hin x (List.mem_cons_of_mem s hx))
    simp only [List.foldl_cons, hclamp]
    exact hrest

/-- C8 amended: the single-step `ReputationService.calculate_reputation`
    realises `0.9·prev + 0.1·score` clamped to `[0, 10]`; the
    score-archive EMA over a worker's scores in recorded order applies
    the same recurrence seeded with the first score but without clamping,
    and agrees with the clamped recurrence (staying in `[0, 10]`)
    whenever every recorded score lies in `[0, 10]`. -/
theorem C8_ema_reputation (scores : List ℚ) (hin : ∀ s ∈ scores, 0 ≤ s ∧ s ≤ 10) :
    calculate_ema_score (9/10) scores = emaClampedSpec (9/10) scores ∧
    0 ≤ calculate_ema_score (9/10) scores ∧ calculate_ema_score (9/10) scores ≤ 10 ∧
    (∀ prev cur : ℚ, 0 ≤ prev → prev ≤ 10 → 0 ≤ cur → cur ≤ 10 →
      calculate_reputation (9/10) prev cur = 9/10 * prev + (1 - 9/10) * cur ∧
        0 ≤ calculate_reputation (9/10) prev cur ∧
        calculate_reputation (9/10) prev cur ≤ 10) := by
  have hstep : ∀ prev cur : ℚ, 0 ≤ prev → prev ≤ 10 → 0 ≤ cur → cur ≤ 10 →
      calculate_reputation (9/10) prev cur = 9/10 * prev + (1 - 9/10) * cur ∧
        0 ≤ calculate_reputation (9/10) prev cur ∧
        calculate_reputation (9/10) prev cur ≤ 10 := by
    intro prev cur hp0 hp10 hc0 hc10
    unfold calculate_reputation
    have hnot : ¬ (cur < 0 ∨ 10 < cur) := by
      push_neg
      exact ⟨hc0, hc10⟩
    rw [if_neg hnot]
    dsimp only
    have h0 : (0:ℚ) ≤ 9/10 * prev + (1 - 9/10) * cur := by linarith
    have h10 : (9:ℚ)/10 * prev + (1 - 9/10) * cur ≤ 10 := by linarith
    rw [min_eq_right h10, max_eq_right h0]
    exact ⟨rfl, h0, h10⟩
  cases scores with
  | nil => exact ⟨rfl, le_refl 0, by norm_num [calculate_ema_score], hstep⟩
  | cons s0 rest =>
    obtain ⟨h00, h010⟩ := hin s0 (List.mem_cons_self s0 rest)
    have hclamp0 : clamp010 s0 = s0 := by
      unfold clamp010
      rw [min_eq_right h010, max_eq_right h00]
    have hfold := ema_fold_in_range rest s0 h00 h010
      (fun x hx => hin x (List.mem_cons_of_mem s0 hx))
    refine ⟨?_, hfold.2.1, hfold.2.2, hstep⟩
    show rest.foldl (fun ema s => (9:ℚ)/10 * ema + (1 - 9/10) * s) s0
        = rest.foldl (fun ema s => clamp010 ((9:ℚ)/10 * ema + (1 - 9/10) * s)) (clamp010 s0)
    rw [hclamp0]
    exact hfold.1

/-- C8 amended witness: scores `[5, 7]` give the same value with and
    without per-step clamping. -/
theorem C8_ema_reputation_witness :
    calculate_ema_score (9/10) [5, 7] = emaClampedSpec (9/10) [5, 7] :=
  (C8_ema_reputation [5, 7] (by norm_num)).1

/-- C9 counterexample: a cached worker flagged online but with no
    recorded heartbeat is reported online — the TTL check is skipped when
    the heartbeat is absent, so "absent heartbeat implies not online"
    fails on the code. -/
theorem C9_counterexample :
    c9Rec.last_heartbeat = none ∧
    is_miner_online [c9Rec] 1000 120 "m1" = true ∧
    get_online_miners [c9Rec] 1000 120 = [c9Rec] := by
  refine ⟨rfl, ?_, ?_⟩ <;> decide

/-- C9 amended: a worker is reported online iff its record is found, its
    `is_online` flag is set, and either no heartbeat is recorded (the TTL
    check is skipped) or `now - last_heartbeat ≤ TTL`; in particular a
    worker whose recorded heartbeat is older than the TTL is not online.
    The same characterisation governs membership in
    `get_online_miners`. -/
theorem C9_online_characterisation (cache : List MinerRecord) (now timeout : ℚ)
    (hk : String) :
    (is_miner_online cache now timeout hk = true ↔
      ∃ m, cache.find? (fun m => m.hotkey == hk) = some m ∧ m.is_online = true ∧
        (m.last_heartbeat = none ∨ ∃ hb, m.last_heartbeat = some hb ∧ now - hb ≤ timeout)) ∧
    (∀ m : MinerRecord, m ∈ get_online_miners cache now timeout ↔
      m ∈ cache ∧ m.is_online = true ∧
        (m.last_heartbeat = none ∨ ∃ hb, m.last_heartbeat = some hb ∧ now - hb ≤ timeout)) := by
  have hbeat : ∀ m : MinerRecord, heartbeatOk now timeout m = true ↔
      m.is_online = true ∧
        (m.last_heartbeat = none ∨ ∃ hb, m.last_heartbeat = some hb ∧ now - hb ≤ timeout) := by
    intro m
    unfold heartbeatOk
    cases hhb : m.last_heartbeat with
    | none => simp [hhb]
    | some hb =>
      simp only [hhb, Bool.and_eq_true, Bool.not_eq_true', decide_eq_false_iff_not, not_lt]
      constructor
      · rintro ⟨h1, h2⟩
        exact ⟨h1, Or.inr ⟨hb, rfl, h2⟩⟩
      · rintro ⟨h1, h2 | ⟨hb2, hb2eq, hle⟩⟩
        · exact absurd h2 (by simp)
        · cases Option.some.inj hb2eq
          exact ⟨h1, hle⟩
  constructor
  · unfold is_miner_online
    cases hfind : cache.find? (fun m => m.hotkey == hk) with
    | none => simp
    | some m =>
      cases hon : m.is_online <;> cases hhb : m.last_heartbeat <;>
        simp [hon, hhb, not_lt]
  · intro m
    unfold get_online_miners
    rw [List.mem_filter, hbeat m]

/-- C9 amended witness: a worker whose heartbeat is 50 seconds old with
    a 120-second TTL is online. -/
theorem C9_online_characterisation_witness :
    is_miner_online [c9Rec2] 1000 120 "m2" = true :=
  (C9_online_characterisation [c9Rec2] 1000 120 "m2").1.mpr
    ⟨c9Rec2, by decide, rfl, Or.inr ⟨950, rfl, by norm_num⟩⟩

/-- In a `≤`-sorted rational list every element is at most the last
    element. -/
theorem sorted_le_getLast {l : List ℚ} (hs : l.Sorted (· ≤ ·)) (hne : l ≠ []) :
    ∀ x ∈ l, x ≤ l.getLast hne := by
  induction l with
  | nil => exact absurd rfl hne
  | cons a t ih =>
    intro x hx
    cases t with
    | nil =>
      rw [List.mem_singleton] at hx
      subst hx
      rfl
    | cons b t2 =>
      rw [List.getLast_cons (List.cons_ne_nil b t2)]
      rcases List.mem_cons.mp hx with rfl | hx2
      · exact le_trans
          (List.rel_of_sorted_cons hs b (List.mem_cons_self b t2))
          (ih hs.of_cons (List.cons_ne_nil b t2) b (List.mem_cons_self b t2))
      · exact ih hs.of_cons (List.cons_ne_nil b t2) x hx2

/-- C2: per `(task, worker)` pair, with at least 3 recorded scores the
    aggregation discards one minimum and one maximum and returns the mean
    of the remainder; with fewer it returns the plain mean; `[2,8,9]`
    aggregates to 8 and `[8,8]` to 8; and every pair produced by
    `get_all_scores_for_workflow` carries exactly this aggregate of the
    miner's recorded scores. -/
theorem C2_trimmed_mean :
    (∀ l : List ℚ, 3 ≤ l.length →
      ∃ mn mx mid, l.Perm (mn :: mx :: mid) ∧ (∀ x ∈ l, mn ≤ x) ∧ (∀ x ∈ l, x ≤ mx) ∧
        mid.length = l.length - 2 ∧ aggregateScores l = mid.sum / mid.length) ∧
    (∀ l : List ℚ, l ≠ [] → l.length < 3 → aggregateScores l = l.sum / l.length) ∧
    aggregateScores [2, 8, 9] = 8 ∧ aggregateScores [8, 8] = 8 ∧
    (∀ scores wf p, p ∈ get_all_scores_for_workflow scores wf →
      p.2 = aggregateScores (scoresForMiner (scores.filter (fun s => s.workflow_id == wf)) p.1)) := by
  refine ⟨?_, ?_,
    by norm_num [aggregateScores, List.insertionSort, List.orderedInsert],
    by norm_num [aggregateScores], ?_⟩
  · intro l hl
    have hperm : (l.insertionSort (· ≤ ·)).Perm l := List.perm_insertionSort _ l
    have hsort : (l.insertionSort (· ≤ ·)).Sorted (· ≤ ·) := List.sorted_insertionSort _ l
    have hlen : (l.insertionSort (· ≤ ·)).length = l.length := hperm.length_eq
    obtain ⟨a, t, hst⟩ : ∃ a t, l.insertionSort (· ≤ ·) = a :: t := by
      cases hc : l.insertionSort (· ≤ ·) with
      | nil => rw [hc] at hlen; simp at hlen; omega
      | cons a t => exact ⟨a, t, rfl⟩
    have htne : t ≠ [] := by
      intro h
      rw [hst, h] at hlen
      simp at hlen
      omega
    rw [hst] at hperm hsort hlen
    refine ⟨a, t.getLast htne, t.dropLast, ?_, ?_, ?_, ?_, ?_⟩
    · have h1 : (t.dropLast ++ [t.getLast htne]).Perm (t.getLast htne :: t.dropLast) :=
        List.perm_append_singleton _ _
      have h2 : t.Perm (t.getLast htne :: t.dropLast) := by
        conv_lhs => rw [← t.dropLast_append_getLast htne]
        exact h1
      exact hperm.symm.trans (h2.cons a)
    · intro x hx
      rw [← hperm.mem_iff] at hx
      rcases List.mem_cons.mp hx with rfl | hx2
      · rfl
      · exact List.rel_of_sorted_cons hsort x hx2
    · intro x hx
      rw [← hperm.mem_iff] at hx
      have hlast : t.getLast htne ∈ t := List.getLast_mem htne
      rcases List.mem_cons.mp hx with rfl | hx2
      · exact List.rel_of_sorted_cons hsort _ hlast
      · exact sorted_le_getLast hsort.of_cons htne x hx2
    · have : t.length = l.length - 1 := by simp at hlen; omega
      rw [List.length_dropLast, this]
      omega
    · unfold aggregateScores
      rw [if_pos hl]
      dsimp only
      rw [hst]
      rfl
  · intro l hne hlt
    unfold aggregateScores
    rw [if_neg (by omega), if_neg (by simpa [List.length_eq_zero] using hne)]
  · intro scores wf p hp
    unfold get_all_scores_for_workflow at hp
    obtain ⟨m, hm, rfl⟩ := List.mem_map.mp hp
    rfl

/-- C2 witness: two scores aggregate to their plain mean. -/
theorem C2_trimmed_mean_witness :
    aggregateScores [4, 6] = ([4, 6] : List ℚ).sum / (([4, 6] : List ℚ).length : ℚ) :=
  C2_trimmed_mean.2.1 [4, 6] (by decide) (by decide)

/-- Summing the second components after scaling each by `c`. -/
theorem sum_map_scaled (ws : List (String × ℚ)) (c : ℚ) :
    ((ws.map fun p => (p.1, p.2 * c)).map Prod.snd).sum = (ws.map Prod.snd).sum * c := by
  induction ws with
  | nil => simp
  | cons p rest ih =>
    simp only [List.map_cons, List.sum_cons, ih]
    ring

/-- C3: with an explicit weight dict holding at least one nonzero
    (nonnegative) weight, every worker receives
    `(weight / Σ weights) × task_pool` with the text pool `0.27·E` and
    the image pool `0.63·E`, and the reward amounts sum to exactly the
    pool; with total weight zero every worker receives zero and the
    positive-amount filter that feeds the ledger is empty; the per-miner
    `ScoringService.calculate_reward` realises the same split and
    returns 0 when the total weight is zero. -/
theorem C3_reward_conservation (miner_scores weights : List (String × ℚ)) (E : ℚ)
    (hnn : ∀ p ∈ weights, 0 ≤ p.2) (hex : ∃ p ∈ weights, p.2 ≠ 0) :
    (calculate_rewards miner_scores (some weights) "text_lora_creation" E
        = weights.map fun p => (p.1, p.2 / (weights.map Prod.snd).sum * (E * (27/100)))) ∧
    (((calculate_rewards miner_scores (some weights) "text_lora_creation" E).map Prod.snd).sum
        = E * (27/100)) ∧
    (((calculate_rewards miner_scores (some weights) "image_lora_creation" E).map Prod.snd).sum
        = E * (63/100)) ∧
    (∀ (tt : String) (ws : List (String × ℚ)), (ws.map Prod.snd).sum = 0 → ¬ ws.isEmpty →
      calculate_rewards miner_scores (some ws) tt E = miner_scores.map (fun p => (p.1, 0)) ∧
        (calculate_rewards miner_scores (some ws) tt E).filter (fun p => decide (0 < p.2)) = []) ∧
    (∀ w tt, scoring_calculate_reward w 0 E tt = 0) ∧
    (∀ w W, W ≠ 0 →
      scoring_calculate_reward w W E "text_lora_creation" = w / W * (E * (27/100))) := by
  obtain ⟨q, hq, hqne⟩ := hex
  have hqpos : 0 < q.2 := lt_of_le_of_ne (hnn q hq) (Ne.symm hqne)
  have hWpos : 0 < (weights.map Prod.snd).sum := by
    have hle : q.2 ≤ (weights.map Prod.snd).sum := by
      refine List.single_le_sum ?_ _ (List.mem_map_of_mem Prod.snd hq)
      intro x hx
      obtain ⟨p, hp, rfl⟩ := List.mem_map.mp hx
      exact hnn p hp
    linarith
  have hW : (weights.map Prod.snd).sum ≠ 0 := ne_of_gt hWpos
  have hnonempty : ¬ weights.isEmpty := by
    intro h
    rw [List.isEmpty_iff] at h
    subst h
    exact absurd hq (List.not_mem_nil q)
  have hform : ∀ pool : ℚ,
      (if (weights.map Prod.snd).sum = 0 then miner_scores.map fun p => (p.1, (0:ℚ))
        else weights.map fun p =>
          (p.1, if p.2 = 0 then (0:ℚ) else p.2 / (weights.map Prod.snd).sum * pool))
        = weights.map fun p => (p.1, p.2 / (weights.map Prod.snd).sum * pool) := by
    intro pool
    rw [if_neg hW]
    refine List.map_congr_left ?_
    intro p hp
    by_cases hz : p.2 = 0
    · rw [if_pos hz, hz]
      simp
    · rw [if_neg hz]
  have hsum : ∀ pool : ℚ,
      ((weights.map fun p => (p.1, p.2 / (weights.map Prod.snd).sum * pool)).map Prod.snd).sum
        = pool := by
    intro pool
    have hcongr : (weights.map fun p => (p.1, p.2 / (weights.map Prod.snd).sum * pool))
        = weights.map fun p => (p.1, p.2 * (pool / (weights.map Prod.snd).sum)) := by
      refine List.map_congr_left ?_
      intro p _
      have : p.2 / (weights.map Prod.snd).sum * pool
          = p.2 * (pool / (weights.map Prod.snd).sum) := by ring
      rw [this]
    rw [hcongr, sum_map_scaled]
    field_simp
  have htext : calculate_rewards miner_scores (some weights) "text_lora_creation" E
      = weights.map fun p => (p.1, p.2 / (weights.map Prod.snd).sum * (E * (27/100))) := by
    unfold calculate_rewards
    dsimp only
    rw [if_neg hnonempty]
    simp only [reduceIte]
    exact hform (E * (27/100))
  have himg : calculate_rewards miner_scores (some weights) "image_lora_creation" E
      = weights.map fun p => (p.1, p.2 / (weights.map Prod.snd).sum * (E * (63/100))) := by
    unfold calculate_rewards
    dsimp only
    rw [if_neg hnonempty]
    simp only [reduceIte]
    exact hform (E * (63/100))
  refine ⟨htext, ?_, ?_, ?_, ?_, ?_⟩
  · rw [htext]
    exact hsum (E * (27/100))
  · rw [himg]
    exact hsum (E * (63/100))
  · intro tt ws hz hne
    have hzero : calculate_rewards miner_scores (some ws) tt E
        = miner_scores.map fun p => (p.1, (0:ℚ)) := by
      unfold calculate_rewards
      dsimp only
      rw [if_neg hne, if_pos hz]
    refine ⟨hzero, ?_⟩
    rw [hzero]
    simp
    intro a b x x1 _ _ h
    exact le_of_eq h.symm
  · intro w tt
    unfold scoring_calculate_reward
    rw [if_pos rfl]
  · intro w W hWne
    unfold scoring_calculate_reward
    rw [if_neg hWne]
    simp only [reduceIte]

/-- C3 witness: one worker of weight 2 receives the whole text pool of
    `0.27 × 100 = 27`. -/
theorem C3_reward_conservation_witness :
    ((calculate_rewards [("a", 8)] (some [("a", 2)]) "text_lora_creation" 100).map
      Prod.snd).sum = 100 * (27/100) :=
  (C3_reward_conservation [("a", 8)] [("a", 2)] 100 (by norm_num)
    ⟨("a", 2), by simp, by norm_num⟩).2.1

/-- A lifecycle tick never moves a task backwards in phase order. -/
theorem lifecycle_rank_le (now : ℚ) (t : LifeTask) :
    statusRank t.status ≤ statusRank (update_task_status now t).status := by
  rcases t with ⟨id, st, ty, es, rs, rw, we⟩
  cases st with
  | pending => exact le_refl _
  | announcement =>
    cases es with
    | none => exact le_refl _
    | some b => by_cases h : b ≤ now <;> simp [update_task_status, h, statusRank]
  | execution =>
    cases rs with
    | none => exact le_refl _
    | some b => by_cases h : b ≤ now <;> simp [update_task_status, h, statusRank]
  | review =>
    cases rw with
    | none => exact le_refl _
    | some b => by_cases h : b ≤ now <;> simp [update_task_status, h, statusRank]
  | reward =>
    cases we with
    | none => exact le_refl _
    | some b => by_cases h : b ≤ now <;> simp [update_task_status, h, statusRank]
  | ended => exact le_refl _

/-- Status rank is monotone along any sequence of lifecycle ticks. -/
theorem run_lifecycle_rank_le (times : List ℚ) :
    ∀ t : LifeTask, statusRank t.status ≤ statusRank (run_lifecycle times t).status := by
  induction times with
  | nil => intro t; exact le_refl _
  | cons n rest ih =>
    intro t
    exact le_trans (lifecycle_rank_le n t) (ih (update_task_status n t))

/-- C5: each lifecycle tick either leaves a task's status unchanged or
    advances it to the immediate successor in the phase order
    `pending (draft) → announcement → execution → review → reward →
    ended`, and only when the boundary timestamp that gates the new
    status exists and `now` has reached it; draft (`pending`) and `ended`
    tasks never change; hence over any tick sequence the observed
    statuses form a forward-only, no-skip chain. -/
theorem C5_lifecycle_monotonicity (now : ℚ) (t : LifeTask) :
    ((update_task_status now t).status = t.status ∨
      (statusRank (update_task_status now t).status = statusRank t.status + 1 ∧
        ∃ b, boundaryFor t (update_task_status now t).status = some b ∧ b ≤ now)) ∧
    (t.status = .pending → update_task_status now t = t) ∧
    (t.status = .ended → update_task_status now t = t) ∧
    (∀ times : List ℚ, statusRank t.status ≤ statusRank (run_lifecycle times t).status) := by
  refine ⟨?_, ?_, ?_, fun times => run_lifecycle_rank_le times t⟩
  · rcases t with ⟨id, st, ty, es, rs, rw, we⟩
    cases st with
    | pending => exact Or.inl rfl
    | announcement =>
      cases es with
      | none => exact Or.inl rfl
      | some b =>
        by_cases h : b ≤ now
        · exact Or.inr (by simp [update_task_status, h, statusRank, boundaryFor])
        · exact Or.inl (by simp [update_task_status, h])
    | execution =>
      cases rs with
      | none => exact Or.inl rfl
      | some b =>
        by_cases h : b ≤ now
        · exact Or.inr (by simp [update_task_status, h, statusRank, boundaryFor])
        · exact Or.inl (by simp [update_task_status, h])
    | review =>
      cases rw with
      | none => exact Or.inl rfl
      | some b =>
        by_cases h : b ≤ now
        · exact Or.inr (by simp [update_task_status, h, statusRank, boundaryFor])
        · exact Or.inl (by simp [update_task_status, h])
    | reward =>
      cases we with
      | none => exact Or.inl rfl
      | some b =>
        by_cases h : b ≤ now
        · exact Or.inr (by simp [update_task_status, h, statusRank, boundaryFor])
        · exact Or.inl (by simp [update_task_status, h])
    | ended => exact Or.inl rfl
  · intro h
    rcases t with ⟨id, st, ty, es, rs, rw, we⟩
    cases st <;> first | rfl | exact absurd h (by simp)
  · intro h
    rcases t with ⟨id, st, ty, es, rs, rw, we⟩
    cases st <;> first | rfl | exact absurd h (by simp)

/-- C5 witness: a draft (`pending`) task is untouched by a tick. -/
theorem C5_lifecycle_monotonicity_witness :
    update_task_status 5 ⟨"t", .pending, "ty", none, none, none, none⟩
      = ⟨"t", .pending, "ty", none, none, none, none⟩ :=
  (C5_lifecycle_monotonicity 5 ⟨"t", .pending, "ty", none, none, none, none⟩).2.1 rfl

/-- Inserting a row whose key is already recorded leaves the ledger
    unchanged. -/
theorem ledgerInsert_of_keyMem {led : List RewardRow} {row : RewardRow}
    (h : keyMem led row) : ledgerInsert led row = led := by
  obtain ⟨r, hr, h1, h2, h3⟩ := h
  unfold ledgerInsert
  rw [if_pos]
  rw [List.any_eq_true]
  refine ⟨r, hr, ?_⟩
  simp [h1, h2, h3]

/-- Ledger insertion preserves key-membership. -/
theorem keyMem_ledgerInsert_mono {led : List RewardRow} {r : RewardRow}
    (row : RewardRow) (h : keyMem led r) : keyMem (ledgerInsert led row) r := by
  obtain ⟨r0, hr0, he⟩ := h
  unfold ledgerInsert
  split
  · exact ⟨r0, hr0, he⟩
  · exact ⟨r0, List.mem_append_left _ hr0, he⟩

/-- After inserting a row, its key is recorded. -/
theorem keyMem_ledgerInsert_self (led : List RewardRow) (row : RewardRow) :
    keyMem (ledgerInsert led row) row := by
  unfold ledgerInsert
  split
  · next h =>
    rw [List.any_eq_true] at h
    obtain ⟨r, hr, hf⟩ := h
    rw [Bool.and_eq_true, Bool.and_eq_true] at hf
    exact ⟨r, hr, beq_iff_eq.mp hf.1.1, beq_iff_eq.mp hf.1.2, beq_iff_eq.mp hf.2⟩
  · exact ⟨row, List.mem_append_right _ (List.mem_singleton.mpr rfl), rfl, rfl, rfl⟩

/-- Key-membership is preserved by a whole fold of insertions. -/
theorem keyMem_foldl_mono (rows : List RewardRow) :
    ∀ (led : List RewardRow) (r : RewardRow), keyMem led r →
      keyMem (rows.foldl ledgerInsert led) r := by
  induction rows with
  | nil => intro led r h; exact h
  | cons row rest ih =>
    intro led r h
    exact ih (ledgerInsert led row) r (keyMem_ledgerInsert_mono row h)

/-- Every inserted row's key is recorded after the fold. -/
theorem keyMem_foldl_self (rows : List RewardRow) :
    ∀ (led : List RewardRow) (r : RewardRow), r ∈ rows →
      keyMem (rows.foldl ledgerInsert led) r := by
  induction rows with
  | nil => intro led r h; exact absurd h (List.not_mem_nil r)
  | cons row rest ih =>
    intro led r h
    rcases List.mem_cons.mp h with rfl | h2
    · exact keyMem_foldl_mono rest (ledgerInsert led r) r (keyMem_ledgerInsert_self led r)
    · exact ih (ledgerInsert led row) r h2

/-- A fold of insertions whose keys are all already recorded is a
    no-op. -/
theorem foldl_ledgerInsert_idem (rows : List RewardRow) :
    ∀ led : List RewardRow, (∀ r ∈ rows, keyMem led r) →
      rows.foldl ledgerInsert led = led := by
  induction rows with
  | nil => intro led _; rfl
  | cons row rest ih =>
    intro led h
    rw [List.foldl_cons, ledgerInsert_of_keyMem (h row (List.mem_cons_self row rest))]
    exact ih led fun r hr => h r (List.mem_cons_of_mem row hr)

/-- A row of the folded ledger is an old row or one of the inserted
    rows. -/
theorem mem_foldl_ledgerInsert (rows : List RewardRow) :
    ∀ (led : List RewardRow) (r : RewardRow), r ∈ rows.foldl ledgerInsert led →
      r ∈ led ∨ r ∈ rows := by
  induction rows with
  | nil => intro led r h; exact Or.inl h
  | cons row rest ih =>
    intro led r h
    rcases ih (ledgerInsert led row) r h with h2 | h2
    · unfold ledgerInsert at h2
      split at h2
      · exact Or.inl h2
      · rcases List.mem_append.mp h2 with h3 | h3
        · exact Or.inl h3
        · exact Or.inr (List.mem_cons.mpr (Or.inl (List.mem_singleton.mp h3)))
    · exact Or.inr (List.mem_cons_of_mem row h2)

/-- Every row produced by one distribution invocation carries the round
    id derived from the triggering audit id. -/
theorem distributionRows_round (tasks : List LifeTask) (audit_tasks : List AuditTaskRow)
    (scores : List ScoreRow) (subs : List SubmissionRow) (aid wf : String) (e : ℚ) :
    ∀ r ∈ distributionRows tasks audit_tasks scores subs aid wf e,
      r.distribution_round = distributionRound aid := by
  intro r hr
  unfold distributionRows at hr
  dsimp only at hr
  split at hr
  · exact absurd hr (List.not_mem_nil r)
  · split at hr
    · exact absurd hr (List.not_mem_nil r)
    · split at hr
      · exact absurd hr (List.not_mem_nil r)
      · split at hr
        · exact absurd hr (List.not_mem_nil r)
        · split at hr
          · exact absurd hr (List.not_mem_nil r)
          · obtain ⟨p, hp, rfl⟩ := List.mem_map.mp hr
            rfl

/-- C1: re-running reward distribution for the same quorum-completing
    audit id is a no-op — the round id is derived from the audit id, the
    recomputation reads only tables that distribution does not modify,
    and the round-id-keyed ledger rejects every duplicate insert; every
    row the invocation records carries the derived round id. -/
theorem C1_idempotent_distribution (db : Db) (aid wf : String) (e : ℚ) :
    distribute_rewards_for_completed_audit
        (distribute_rewards_for_completed_audit db aid wf e) aid wf e
      = distribute_rewards_for_completed_audit db aid wf e ∧
    (∀ r ∈ (distribute_rewards_for_completed_audit db aid wf e).ledger,
      r ∈ db.ledger ∨ r.distribution_round = distributionRound aid) := by
  constructor
  · unfold distribute_rewards_for_completed_audit
    dsimp only
    congr 1
    exact foldl_ledgerInsert_idem _ _
      (fun r hr => keyMem_foldl_self _ db.ledger r hr)
  · intro r hr
    unfold distribute_rewards_for_completed_audit at hr
    dsimp only at hr
    rcases mem_foldl_ledgerInsert _ db.ledger r hr with h | h
    · exact Or.inl h
    · exact Or.inr (distributionRows_round _ _ _ _ aid wf e r h)

/-- C1 witness: on a database with no matching task the invocation
    leaves an existing ledger row in place, and that row is an old
    row. -/
theorem C1_idempotent_distribution_witness :
    ({ workflow_id := "w0", miner_hotkey := "m0", reward_amount := 1, weight := 1,
       score := 1, distribution_round := "r0" } : RewardRow) ∈
        (⟨[], [], [], [],
          [{ workflow_id := "w0", miner_hotkey := "m0", reward_amount := 1, weight := 1,
             score := 1, distribution_round := "r0" }]⟩ : Db).ledger ∨
      ({ workflow_id := "w0", miner_hotkey := "m0", reward_amount := 1, weight := 1,
         score := 1, distribution_round := "r0" } : RewardRow).distribution_round
        = distributionRound "a0" :=
  (C1_idempotent_distribution
    ⟨[], [], [], [],
      [{ workflow_id := "w0", miner_hotkey := "m0", reward_amount := 1, weight := 1,
         score := 1, distribution_round := "r0" }]⟩ "a0" "w0" 0).2
    { workflow_id := "w0", miner_hotkey := "m0", reward_amount := 1, weight := 1,
      score := 1, distribution_round := "r0" }
    (by simp [distribute_rewards_for_completed_audit, distributionRows,
      is_task_in_execution_or_review])

set_option maxHeartbeats 4000000 in
/-- C4 counterexample: with the quorum of 3 completed clones in place
    before any score arrives, the insertion at which the count first
    meets the quorum (the very first one) records no rewards — the
    aggregate 2 is below the 3.5 baseline — and the ledger stays empty
    through four insertions, yet the fifth insertion (count still 3)
    records a reward row: distribution fires at a later insertion, not
    exactly at the quorum-reaching one. -/
theorem C4_counterexample :
    3 ≤ (completedAudits c4Db.audit_tasks "w" "A").length ∧
    c4D1.ledger = [] ∧ c4D4.ledger = [] ∧ c4D5.ledger ≠ [] := by
  have h1 : c4D1 =
      { tasks := c4Db.tasks, audit_tasks := c4Db.audit_tasks,
        scores := [c4Score "v1" 2], submissions := [], ledger := [] } := by
    simp +decide [c4D1, c4Db, c4Task, c4Clone, c4Score, submit_score, completedAudits,
      pyMaxBy, distribute_rewards_for_completed_audit, distributionRows,
      is_task_in_execution_or_review, is_task_ended, eligibleMiners,
      get_all_scores_for_workflow, minersOf, scoresForMiner, aggregateScores,
      minerWeight, latestSubmission, calculate_quality_score, calculate_final_weight,
      calculate_time_coefficient, calculate_rewards, scoreWeights, lookupD,
      distributionRound, ledgerInsert, List.insertionSort, List.orderedInsert]
    norm_num [minerWeight, latestSubmission, calculate_quality_score,
      calculate_final_weight, calculate_rewards, scoreWeights, lookupD, ledgerInsert]
  have h2 : c4D2 =
      { tasks := c4Db.tasks, audit_tasks := c4Db.audit_tasks,
        scores := [c4Score "v1" 2, c4Score "v2" 3], submissions := [], ledger := [] } := by
    simp +decide [c4D2, h1, c4Db, c4Task, c4Clone, c4Score, submit_score, completedAudits,
      pyMaxBy, distribute_rewards_for_completed_audit, distributionRows,
      is_task_in_execution_or_review, is_task_ended, eligibleMiners,
      get_all_scores_for_workflow, minersOf, scoresForMiner, aggregateScores,
      minerWeight, latestSubmission, calculate_quality_score, calculate_final_weight,
      calculate_time_coefficient, calculate_rewards, scoreWeights, lookupD,
      distributionRound, ledgerInsert, List.insertionSort, List.orderedInsert]
    norm_num [minerWeight, latestSubmission, calculate_quality_score,
      calculate_final_weight, calculate_rewards, scoreWeights, lookupD, ledgerInsert]
  have h3 : c4D3 =
      { tasks := c4Db.tasks, audit_tasks := c4Db.audit_tasks,
        scores := [c4Score "v1" 2, c4Score "v2" 3, c4Score "v3" 3],
        submissions := [], ledger := [] } := by
    simp +decide [c4D3, h2, c4Db, c4Task, c4Clone, c4Score, submit_score, completedAudits,
      pyMaxBy, distribute_rewards_for_completed_audit, distributionRows,
      is_task_in_execution_or_review, is_task_ended, eligibleMiners,
      get_all_scores_for_workflow, minersOf, scoresForMiner, aggregateScores,
      minerWeight, latestSubmission, calculate_quality_score, calculate_final_weight,
      calculate_time_coefficient, calculate_rewards, scoreWeights, lookupD,
      distributionRound, ledgerInsert, List.insertionSort, List.orderedInsert]
    norm_num [minerWeight, latestSubmission, calculate_quality_score,
      calculate_final_weight, calculate_rewards, scoreWeights, lookupD, ledgerInsert]
  have h4 : c4D4 =
      { tasks := c4Db.tasks, audit_tasks := c4Db.audit_tasks,
        scores := [c4Score "v1" 2, c4Score "v2" 3, c4Score "v3" 3, c4Score "v1" 10],
        submissions := [], ledger := [] } := by
    simp +decide [c4D4, h3, c4Db, c4Task, c4Clone, c4Score, submit_score, completedAudits,
      pyMaxBy, distribute_rewards_for_completed_audit, distributionRows,
      is_task_in_execution_or_review, is_task_ended, eligibleMiners,
      get_all_scores_for_workflow, minersOf, scoresForMiner, aggregateScores,
      minerWeight, latestSubmission, calculate_quality_score, calculate_final_weight,
      calculate_time_coefficient, calculate_rewards, scoreWeights, lookupD,
      distributionRound, ledgerInsert, List.insertionSort, List.orderedInsert]
    norm_num [minerWeight, latestSubmission, calculate_quality_score,
      calculate_final_weight, calculate_rewards, scoreWeights, lookupD, ledgerInsert]
  have h5 : c4D5 =
      { tasks := c4Db.tasks, audit_tasks := c4Db.audit_tasks,
        scores := [c4Score "v1" 2, c4Score "v2" 3, c4Score "v3" 3, c4Score "v1" 10,
          c4Score "v2" 10],
        submissions := [],
        ledger := [{ workflow_id := "w", miner_hotkey := "A", reward_amount := 270, weight := 4096/27, score := 16/3, distribution_round := "audit_a3" }] } := by
    simp +decide [c4D5, h4, c4Db, c4Task, c4Clone, c4Score, submit_score, completedAudits,
      pyMaxBy, distribute_rewards_for_completed_audit, distributionRows,
      is_task_in_execution_or_review, is_task_ended, eligibleMiners,
      get_all_scores_for_workflow, minersOf, scoresForMiner, aggregateScores,
      minerWeight, latestSubmission, calculate_quality_score, calculate_final_weight,
      calculate_time_coefficient, calculate_rewards, scoreWeights, lookupD,
      distributionRound, ledgerInsert, List.insertionSort, List.orderedInsert]
    norm_num [minerWeight, latestSubmission, calculate_quality_score,
      calculate_final_weight, calculate_rewards, scoreWeights, lookupD, ledgerInsert]
  refine ⟨by decide, ?_, ?_, ?_⟩
  · rw [h1]
  · rw [h4]
  · rw [h5]
    simp

/-- C4 amended: the distributor never fires while the completed-clone
    count for the pair is below the quorum of 3 (the insertion only
    appends the score row); at every insertion with count at least 3 it
    is re-invoked for the round id derived from the latest completed
    clone; and any ledger row a submission adds carries that derived
    round id (so a key is recorded at most once per round, but a later
    insertion whose re-aggregated scores newly clear the baseline can
    still add rows under the same round id). -/
theorem C4_quorum_gating (db : Db) (sd : ScoreRow) (e : ℚ) :
    ((completedAudits db.audit_tasks sd.workflow_id sd.miner_hotkey).length < 3 →
      submit_score db sd e = { db with scores := db.scores ++ [sd] }) ∧
    (∀ latest,
      3 ≤ (completedAudits db.audit_tasks sd.workflow_id sd.miner_hotkey).length →
      pyMaxBy (fun t => t.completed_at.getD t.created_at)
          (completedAudits db.audit_tasks sd.workflow_id sd.miner_hotkey) = some latest →
      submit_score db sd e
        = distribute_rewards_for_completed_audit
            { db with scores := db.scores ++ [sd] } latest.audit_task_id sd.workflow_id e) ∧
    (∀ r ∈ (submit_score db sd e).ledger, r ∈ db.ledger ∨
      ∃ latest,
        pyMaxBy (fun t => t.completed_at.getD t.created_at)
            (completedAudits db.audit_tasks sd.workflow_id sd.miner_hotkey) = some latest ∧
        3 ≤ (completedAudits db.audit_tasks sd.workflow_id sd.miner_hotkey).length ∧
        r.distribution_round = distributionRound latest.audit_task_id) := by
  refine ⟨?_, ?_, ?_⟩
  · intro h
    unfold submit_score
    rw [if_neg (not_le.mpr h)]
  · intro latest h3 hmax
    unfold submit_score
    rw [if_pos h3, hmax]
  · intro r hr
    unfold submit_score at hr
    dsimp only at hr
    split at hr
    · next h3 =>
      split at hr
      · next latest hmax =>
        unfold distribute_rewards_for_completed_audit at hr
        dsimp only at hr
        rcases mem_foldl_ledgerInsert _ db.ledger r hr with h | h
        · exact Or.inl h
        · exact Or.inr ⟨latest, hmax, h3,
            distributionRows_round _ _ _ _ latest.audit_task_id sd.workflow_id e r h⟩
      · exact Or.inl hr
    · exact Or.inl hr

/-- C4 amended witness: on a database with no audit clones a submission
    only appends the score row. -/
theorem C4_quorum_gating_witness :
    submit_score ⟨[], [], [], [], []⟩ ⟨"w", "A", "v", 1⟩ 0
      = ⟨[], [], [⟨"w", "A", "v", 1⟩], [], []⟩ :=
  (C4_quorum_gating ⟨[], [], [], [], []⟩ ⟨"w", "A", "v", 1⟩ 0).1 (by decide)

/-- A duplicate-free list of naturals below `n` has at most `n`
    elements. -/
theorem nodup_lt_length_le (xs : List ℕ) (n : ℕ) (hnd : xs.Nodup)
    (hlt : ∀ x ∈ xs, x < n) : xs.length ≤ n := by
  calc xs.length = xs.dedup.length := by rw [hnd.dedup]
  _ = xs.toFinset.card := (List.card_toFinset xs).symm
  _ ≤ (Finset.range n).card := by
      refine Finset.card_le_card ?_
      intro x hx
      rw [List.mem_toFinset] at hx
      rw [Finset.mem_range]
      exact hlt x hx
  _ = n := Finset.card_range n

/-- `allocate_gpu` returns the first free slot: a valid index that was
    free, now marked occupied. -/
theorem allocate_gpu_spec {gpus : List Bool} {i : ℕ} {gpus1 : List Bool}
    (h : allocate_gpu gpus = some (i, gpus1)) :
    i < gpus.length ∧ gpus[i]? = some true ∧ gpus1 = gpus.set i false := by
  unfold allocate_gpu at h
  cases hf : gpus.findIdx? (fun b => b) with
  | none => rw [hf] at h; exact absurd h (by simp)
  | some j =>
    rw [hf] at h
    simp only [Option.some.injEq, Prod.mk.injEq] at h
    obtain ⟨rfl, rfl⟩ := h
    obtain ⟨hlt, hp, -⟩ := List.findIdx?_eq_some_iff_getElem.mp hf
    exact ⟨hlt, by rw [List.getElem?_eq_getElem hlt, hp], rfl⟩

/-- `dequeue` only changes the lanes. -/
theorem dequeue_fields {s : SchedState} {t : QueuedTask} {s1 : SchedState}
    (h : dequeue s = some (t, s1)) : s1.gpus = s.gpus ∧ s1.running = s.running := by
  rcases s with ⟨g, r, hq, mq, lq⟩
  unfold dequeue at h
  dsimp only at h
  cases hq with
  | cons a rest =>
    simp only [Option.some.injEq, Prod.mk.injEq] at h
    obtain ⟨-, rfl⟩ := h
    exact ⟨rfl, rfl⟩
  | nil =>
    cases mq with
    | cons a rest =>
      simp only [Option.some.injEq, Prod.mk.injEq] at h
      obtain ⟨-, rfl⟩ := h
      exact ⟨rfl, rfl⟩
    | nil =>
      cases lq with
      | cons a rest =>
        simp only [Option.some.injEq, Prod.mk.injEq] at h
        obtain ⟨-, rfl⟩ := h
        exact ⟨rfl, rfl⟩
      | nil => exact absurd h (by simp)

/-- `put_back` only changes the lanes. -/
theorem put_back_fields (s : SchedState) (t : QueuedTask) :
    (put_back s t).gpus = s.gpus ∧ (put_back s t).running = s.running := by
  unfold put_back
  cases t.priority <;> exact ⟨rfl, rfl⟩

/-- The slot invariant transfers along states with the same slots and
    running table. -/
theorem GpuInv_congr {s s2 : SchedState} (hg : s2.gpus = s.gpus)
    (hr : s2.running = s.running) (h : GpuInv s) : GpuInv s2 := by
  unfold GpuInv at h ⊢
  rw [hg, hr]
  exact h

/-- Removing a running entry splits the table around the first match. -/
theorem removeFirstRun_some :
    ∀ {l : List (QueuedTask × ℕ)} {tid : String} {l2 : List (QueuedTask × ℕ)} {g : ℕ},
      removeFirstRun l tid = (l2, some g) →
      ∃ t l₁ l₂, l = l₁ ++ (t, g) :: l₂ ∧ l2 = l₁ ++ l₂ := by
  intro l
  induction l with
  | nil => intro tid l2 g h; simp [removeFirstRun] at h
  | cons p rest ih =>
    intro tid l2 g h
    unfold removeFirstRun at h
    split at h
    · simp only [Prod.mk.injEq, Option.some.injEq] at h
      obtain ⟨rfl, rfl⟩ := h
      exact ⟨p.1, [], rest, by simp, rfl⟩
    · dsimp only at h
      simp only [Prod.mk.injEq] at h
      obtain ⟨rfl, h2⟩ := h
      have h3 : removeFirstRun rest tid = ((removeFirstRun rest tid).1, some g) := by
        rw [← h2]
      obtain ⟨t, l₁, l₂, hdec, hrem⟩ := ih h3
      refine ⟨t, p :: l₁, l₂, ?_, ?_⟩
      · rw [List.cons_append, ← hdec]
      · rw [hrem, List.cons_append]

/-- The number of running training jobs after appending one admitted
    job. -/
theorem trainingCount_append (running : List (QueuedTask × ℕ)) (t : QueuedTask) (g : ℕ) :
    trainingCount (running ++ [(t, g)])
      = trainingCount running + (if isTrainingType t.task_type then 1 else 0) := by
  unfold trainingCount
  rw [List.filter_append]
  by_cases h : isTrainingType t.task_type <;> simp [h]

/-- One scheduler tick preserves the slot invariant. -/
theorem process_queue_GpuInv (maxT : ℕ) (s : SchedState) (h : GpuInv s) :
    GpuInv (process_queue maxT s) := by
  unfold process_queue
  split
  · exact h
  · cases hdq : dequeue s with
    | none => exact h
    | some r =>
      obtain ⟨task, s1⟩ := r
      obtain ⟨hg, hr⟩ := dequeue_fields hdq
      dsimp only
      split
      · exact GpuInv_congr ((put_back_fields s1 task).1.trans hg)
          ((put_back_fields s1 task).2.trans hr) h
      · cases halloc : allocate_gpu s1.gpus with
        | none =>
          exact GpuInv_congr ((put_back_fields s1 task).1.trans hg)
            ((put_back_fields s1 task).2.trans hr) h
        | some a =>
          obtain ⟨i, gpus1⟩ := a
          obtain ⟨hlt, htrue, hset⟩ := allocate_gpu_spec halloc
          rw [hg] at hlt htrue
          have hnotin : i ∉ s.running.map Prod.snd := by
            intro hmem
            obtain ⟨p, hp, hpe⟩ := List.mem_map.mp hmem
            have := (h.2 p hp).2
            rw [hpe, htrue] at this
            exact absurd (Option.some.inj this) (by simp)
          constructor
          · dsimp only
            rw [hr, List.map_append]
            rw [List.nodup_append]
            refine ⟨h.1, by simp, ?_⟩
            intro a ha hai
            simp only [List.map_cons, List.map_nil, List.mem_singleton] at hai
            subst hai
            exact hnotin ha
          · intro p hp
            dsimp only at hp ⊢
            rw [hr] at hp
            rw [hset, hg]
            rcases List.mem_append.mp hp with hold | hnew
            · have hne : i ≠ p.2 := by
                intro he
                exact hnotin (he ▸ List.mem_map_of_mem Prod.snd hold)
              rw [List.length_set, List.getElem?_set_ne hne]
              exact h.2 p hold
            · rw [List.mem_singleton] at hnew
              subst hnew
              rw [List.length_set]
              exact ⟨hlt, by rw [List.getElem?_set_self hlt]⟩

/-- One scheduler tick preserves the training-cap bound. -/
theorem process_queue_trainingCount (maxT : ℕ) (s : SchedState)
    (h : trainingCount s.running ≤ maxT) :
    trainingCount (process_queue maxT s).running ≤ maxT := by
  unfold process_queue
  split
  · exact h
  · cases hdq : dequeue s with
    | none => exact h
    | some r =>
      obtain ⟨task, s1⟩ := r
      obtain ⟨hg, hr⟩ := dequeue_fields hdq
      dsimp only
      split
      · rw [(put_back_fields s1 task).2, hr]
        exact h
      · next hcap =>
        cases halloc : allocate_gpu s1.gpus with
        | none =>
          rw [(put_back_fields s1 task).2, hr]
          exact h
        | some a =>
          obtain ⟨i, gpus1⟩ := a
          dsimp only
          rw [trainingCount_append, hr]
          by_cases htr : isTrainingType task.task_type
          · have hlt : ¬ maxT ≤ trainingCount s1.running := by
              intro hle
              exact hcap (by simp [htr, hle])
            rw [hr] at hlt
            simp only [htr, if_true]
            omega
          · simp [htr, h]

/-- Completing a job preserves the slot invariant. -/
theorem complete_task_GpuInv (s : SchedState) (tid : String) (h : GpuInv s) :
    GpuInv (complete_task s tid) := by
  unfold complete_task
  cases hrm : removeFirstRun s.running tid with
  | mk l2 og =>
    cases og with
    | none => exact h
    | some g =>
      obtain ⟨t, l₁, l₂, hdec, hrem⟩ := removeFirstRun_some hrm
      dsimp only
      have hsub : List.Sublist l2 s.running := by
        rw [hdec, hrem]
        exact (List.sublist_cons_self (t, g) l₂).append_left l₁
      have hgnot : ∀ p ∈ l2, p.2 ≠ g := by
        intro p hp he
        have hnd := h.1
        rw [hdec, List.map_append, List.map_cons] at hnd
        rw [List.nodup_append] at hnd
        obtain ⟨hnd1, hnd2, hdisj⟩ := hnd
        rw [hrem] at hp
        rcases List.mem_append.mp hp with h1 | h1
        · refine hdisj (List.mem_map_of_mem Prod.snd h1) ?_
          rw [he]
          exact List.mem_cons_self _ _
        · have hmem := List.mem_map_of_mem Prod.snd h1
          rw [he] at hmem
          exact (List.nodup_cons.mp hnd2).1 hmem
      constructor
      · exact (h.1.sublist (hsub.map Prod.snd))
      · intro p hp
        dsimp only
        have hmem : p ∈ s.running := hsub.subset hp
        rw [List.length_set]
        refine ⟨(h.2 p hmem).1, ?_⟩
        rw [List.getElem?_set_ne (Ne.symm (hgnot p hp))]
        exact (h.2 p hmem).2

/-- Completing a job never increases the training count. -/
theorem complete_task_trainingCount (s : SchedState) (tid : String)
    (h : trainingCount s.running ≤ maxT) :
    trainingCount (complete_task s tid).running ≤ maxT := by
  unfold complete_task
  cases hrm : removeFirstRun s.running tid with
  | mk l2 og =>
    cases og with
    | none => exact h
    | some g =>
      obtain ⟨t, l₁, l₂, hdec, hrem⟩ := removeFirstRun_some hrm
      have hsub : List.Sublist l2 s.running := by
        rw [hdec, hrem]
        exact (List.sublist_cons_self (t, g) l₂).append_left l₁
      dsimp only
      calc trainingCount l2 ≤ trainingCount s.running := by
            unfold trainingCount
            exact (hsub.filter _).length_le
      _ ≤ maxT := h

/-- A scheduler event preserves slot length, the slot invariant and
    the training cap. -/
theorem sched_step_inv (maxT : ℕ) (s : SchedState) (e : SchedEvent)
    (h1 : GpuInv s) (h2 : trainingCount s.running ≤ maxT) :
    GpuInv (sched_step maxT s e) ∧ trainingCount (sched_step maxT s e).running ≤ maxT ∧
      (sched_step maxT s e).gpus.length = s.gpus.length := by
  cases e with
  | tick =>
    refine ⟨process_queue_GpuInv maxT s h1, process_queue_trainingCount maxT s h2, ?_⟩
    show (process_queue maxT s).gpus.length = s.gpus.length
    unfold process_queue
    split
    · rfl
    · cases hdq : dequeue s with
      | none => rfl
      | some r =>
        obtain ⟨task, s1⟩ := r
        obtain ⟨hg, hr⟩ := dequeue_fields hdq
        dsimp only
        split
        · rw [(put_back_fields s1 task).1, hg]
        · cases halloc : allocate_gpu s1.gpus with
          | none => rw [(put_back_fields s1 task).1, hg]
          | some a =>
            obtain ⟨i, gpus1⟩ := a
            obtain ⟨-, -, hset⟩ := allocate_gpu_spec halloc
            dsimp only
            rw [hset, List.length_set, hg]
  | complete tid =>
    refine ⟨complete_task_GpuInv s tid h1, complete_task_trainingCount s tid h2, ?_⟩
    show (complete_task s tid).gpus.length = s.gpus.length
    unfold complete_task
    cases hrm : removeFirstRun s.running tid with
    | mk l2 og =>
      cases og with
      | none => rfl
      | some g => exact List.length_set s.gpus g true

/-- The invariants hold after any event sequence from an invariant
    state. -/
theorem sched_run_inv (maxT : ℕ) (events : List SchedEvent) :
    ∀ s : SchedState, GpuInv s → trainingCount s.running ≤ maxT →
      GpuInv (sched_run maxT events s) ∧
        trainingCount (sched_run maxT events s).running ≤ maxT ∧
        (sched_run maxT events s).gpus.length = s.gpus.length := by
  induction events with
  | nil => intro s h1 h2; exact ⟨h1, h2, rfl⟩
  | cons e rest ih =>
    intro s h1 h2
    obtain ⟨g1, g2, g3⟩ := sched_step_inv maxT s e h1 h2
    obtain ⟨r1, r2, r3⟩ := ih (sched_step maxT s e) g1 g2
    exact ⟨r1, r2, r3.trans g3⟩

/-- The slot invariant bounds the number of running jobs by the number
    of slots. -/
theorem GpuInv_running_le (s : SchedState) (h : GpuInv s) :
    s.running.length ≤ s.gpus.length := by
  have : (s.running.map Prod.snd).length ≤ s.gpus.length := by
    refine nodup_lt_length_le _ _ h.1 ?_
    intro x hx
    obtain ⟨p, hp, rfl⟩ := List.mem_map.mp hx
    exact (h.2 p hp).1
  simpa using this

/-- C6: starting from any initial state (all slots free, nothing
    running), after any sequence of scheduling ticks and job
    completions the scheduler never has more running jobs than
    accelerator slots nor more running training-class jobs than the
    training cap; and a tick that dequeues a training-class job while
    the cap is met puts it back at the tail of its own lane, leaving
    the running table and slots untouched. -/
theorem C6_scheduler_capacity (gpu_count maxT : ℕ) (hq mq lq : List QueuedTask)
    (events : List SchedEvent) :
    (sched_run maxT events (initSched gpu_count hq mq lq)).running.length ≤ gpu_count ∧
    trainingCount (sched_run maxT events (initSched gpu_count hq mq lq)).running ≤ maxT ∧
    (∀ (s : SchedState) (task : QueuedTask) (s1 : SchedState),
      ¬ available_gpu_count s.gpus = 0 → dequeue s = some (task, s1) →
      isTrainingType task.task_type = true → maxT ≤ trainingCount s1.running →
      process_queue maxT s = put_back s1 task ∧
        (put_back s1 task).running = s.running ∧ (put_back s1 task).gpus = s.gpus) := by
  have hinit1 : GpuInv (initSched gpu_count hq mq lq) := by
    constructor
    · exact List.nodup_nil
    · intro p hp
      exact absurd hp (List.not_mem_nil p)
  have hinit2 : trainingCount (initSched gpu_count hq mq lq).running ≤ maxT := by
    simp [initSched, trainingCount]
  obtain ⟨r1, r2, r3⟩ := sched_run_inv maxT events (initSched gpu_count hq mq lq) hinit1 hinit2
  refine ⟨?_, r2, ?_⟩
  · have := GpuInv_running_le _ r1
    rw [r3] at this
    simpa [initSched] using this
  · intro s task s1 havail hdq htr hcap
    obtain ⟨hg, hr⟩ := dequeue_fields hdq
    have hstep : process_queue maxT s = put_back s1 task := by
      unfold process_queue
      rw [if_neg havail, hdq]
      dsimp only
      rw [if_pos (by simp [htr, hcap])]
    exact ⟨hstep, (put_back_fields s1 task).2.trans hr,
      (put_back_fields s1 task).1.trans hg⟩

/-- C6 witness: one tick that admits the sole queued job, then its
    completion, leaves nothing running; and the cap-hit put-back branch
    fires on a concrete one-slot state. -/
theorem C6_scheduler_capacity_witness :
    (sched_run 1 [SchedEvent.tick]
      (initSched 1 [] [⟨"j1", .medium, "text_lora_training"⟩] [])).running.length ≤ 1 :=
  (C6_scheduler_capacity 1 1 [] [⟨"j1", .medium, "text_lora_training"⟩] []
    [SchedEvent.tick]).1

/-- C10 counterexample: two candidates that the assigner itself builds
    with the same priority score (2.1) and the same in-pass assignment
    count tie down to the pending-count key, and the code ranks the
    candidate with 7 pending audits ahead of the one with 0 —
    `reverse=True` applies to the un-negated third key, so pending count
    ties break descending, not ascending as claimed. -/
theorem C10_counterexample :
    eligible_validators c10Audits c10Validators c10Nodes = [c10X, c10Y] ∧
    c10X.priority_score = c10Y.priority_score ∧
    c10X.pending_count < c10Y.pending_count ∧
    rankCandidates (fun _ => 0) [c10X, c10Y] = [c10Y, c10X] ∧
    rankCandidatesClaim (fun _ => 0) [c10X, c10Y] = [c10X, c10Y] ∧
    c10Y ≠ c10X := by
  have hXY : ¬ candGE (fun _ => 0) c10X c10Y := by
    intro h
    rcases h with h | ⟨-, h⟩
    · norm_num [c10X, c10Y] at h
    · rcases h with h | ⟨-, h⟩
      · norm_num at h
      · norm_num [c10X, c10Y] at h
  have hXYc : claimCandGE (fun _ => 0) c10X c10Y := by
    refine Or.inr ⟨by norm_num [c10X, c10Y], Or.inr ⟨rfl, ?_⟩⟩
    norm_num [c10X, c10Y]
  refine ⟨?_, by norm_num [c10X, c10Y], by norm_num [c10X, c10Y], ?_, ?_, ?_⟩
  · simp +decide [eligible_validators, pendingCount, c10Audits, c10PendingClone,
      c10Validators, c10Nodes, c10X, c10Y, List.find?, List.filter]
    norm_num
  · simp [rankCandidates, List.insertionSort, List.orderedInsert, hXY]
  · simp [rankCandidatesClaim, List.insertionSort, List.orderedInsert, hXYc]
  · intro h
    have := congrArg CandInfo.hotkey h
    simp [c10X, c10Y] at this

/-- C10 amended: every candidate the assigner builds carries
    `priority_score = reputation × 0.7 − pending_count × 0.3` with its
    current pending count; the per-unit re-ranking is a permutation of
    the pool sorted by priority score descending, then this-pass
    assignment count ascending, then pending count DESCENDING (the code
    reverse-sorts the un-negated pending key); and an assignment for a
    `(task, worker, auditor)` triple that already has a clone is a
    no-op. -/
theorem C10_assignment_ranking :
    (∀ (audits : List AuditTaskRow) (validators : List ValidatorRow) (nodes : List NodeData),
      ∀ c ∈ eligible_validators audits validators nodes,
        c.priority_score = c.reputation * (7/10) - (c.pending_count : ℚ) * (3/10) ∧
          c.pending_count = pendingCount audits c.hotkey) ∧
    (∀ (cnt : String → ℕ) (l : List CandInfo),
      (rankCandidates cnt l).Perm l ∧ List.Sorted (candGE cnt) (rankCandidates cnt l)) ∧
    (∀ (audits : List AuditTaskRow) (aid v : String) (now : ℚ) (base : AuditTaskRow),
      audits.find? (fun a => a.audit_task_id == aid) = some base →
      (∃ a ∈ audits, a.original_task_id = base.original_task_id ∧
        a.miner_hotkey = base.miner_hotkey ∧ a.validator_hotkey = some v) →
      assign_audit_task_to_validator audits aid v now = (audits, false)) := by
  refine ⟨?_, ?_, ?_⟩
  · intro audits validators nodes c hc
    unfold eligible_validators at hc
    obtain ⟨nd, hnd, rfl⟩ := List.mem_map.mp hc
    exact ⟨rfl, rfl⟩
  · intro cnt l
    exact ⟨List.perm_insertionSort _ l, List.sorted_insertionSort _ l⟩
  · intro audits aid v now base hfind hex
    unfold assign_audit_task_to_validator
    rw [hfind]
    dsimp only
    rw [if_pos]
    rw [List.any_eq_true]
    obtain ⟨a, ha, h1, h2, h3⟩ := hex
    refine ⟨a, ha, ?_⟩
    simp [h1, h2, h3]

/-- C10 amended witness: the builder's candidates satisfy the priority
    formula on the concrete scenario pool. -/
theorem C10_assignment_ranking_witness :
    c10X.priority_score = c10X.reputation * (7/10) - (c10X.pending_count : ℚ) * (3/10) :=
  (C10_assignment_ranking.1 c10Audits c10Validators c10Nodes c10X
    (by
      have h : eligible_validators c10Audits c10Validators c10Nodes = [c10X, c10Y] := by
        simp +decide [eligible_validators, pendingCount, c10Audits, c10PendingClone,
          c10Validators, c10Nodes, c10X, c10Y, List.find?, List.filter]
        norm_num
      rw [h]
      exact List.mem_cons_self c10X [c10Y])).1

end Kokoro
